import Mathlib

/-
Verification of the forest-stand generator (tree.py / stand.py).

The program is embedded shallowly:
- Python floats become exact reals `ℝ`.
- The ambient numpy random source becomes an explicit stream of reals
  (`RState`): `vals : ℕ → ℝ` is the sequence of `Uniform[0,1)` draws and
  `idx` is how many have been consumed.  `np.random.uniform(a, b)` is
  `a + u * (b - a)` for the next stream value `u`; `np.random.rand()` is the
  next stream value itself.
- `raise ValueError` becomes `Except.error Err.invalidParameter`.
- The unbounded rejection loop in the `sphere` / `sphere_w_LH` crown sampler
  becomes a fuel-indexed recursion; exhausted fuel (which corresponds to an
  infinite loop of rejections in the source) is `Except.error Err.outOfFuel`.
-/

noncomputable section

namespace ForestStand

/-- The explicit random source: an infinite stream of draws together with the
number of draws consumed so far. -/
structure RState where
  vals : ℕ → ℝ
  idx : ℕ

/-- A random source whose raw draws all lie in `[0, 1)`, the range of
`np.random.rand` / the unit draws underlying `np.random.uniform`. -/
def goodStream (s : RState) : Prop :=
  ∀ n, 0 ≤ s.vals n ∧ s.vals n < 1

/-- Consume one raw `[0,1)` draw (`np.random.rand()`). -/
def draw (s : RState) : ℝ × RState :=
  (s.vals s.idx, ⟨s.vals, s.idx + 1⟩)

/-- `np.random.uniform(a, b)`: one raw draw rescaled to `[a, b)`. -/
def uniformR (a b : ℝ) (s : RState) : ℝ × RState :=
  let p := draw s
  (a + p.1 * (b - a), p.2)

/-- Errors of the embedded program: `invalidParameter` is a `ValueError`
raised by the source, `outOfFuel` marks a rejection loop that never accepts. -/
inductive Err where
  | invalidParameter
  | outOfFuel
deriving DecidableEq

/-- `sample_leaf_normal` (tree.py lines 32-52): a leaf normal vector drawn
from the named leaf angle distribution. -/
def sample_leaf_normal (distribution : String) (s : RState) :
    Except Err ((ℝ × ℝ × ℝ) × RState) :=
  if distribution = "uniform" ∨ distribution = "spherical" then
    let p1 := uniformR 0 (2 * Real.pi) s
    let phi := p1.1
    let p2 := uniformR (-1) 1 p1.2
    let cos_theta := p2.1
    let sin_theta := Real.sqrt (1 - cos_theta ^ 2)
    .ok ((sin_theta * Real.cos phi, sin_theta * Real.sin phi, cos_theta), p2.2)
  else if distribution = "planophile" then
    .ok ((0, 0, 1), s)
  else if distribution = "erectophile" then
    .ok ((1, 0, 0), s)
  else
    .error .invalidParameter

/-- The `while True` rejection loop shared by the `sphere` and `sphere_w_LH`
branches of `sample_point_in_crown` (tree.py lines 94-106): draw a point
uniformly in the cube `[-radius, radius]^3`, accept when its Euclidean norm is
at most `radius`, then rescale (and for `sphere_w_LH` take the absolute value
of) the z component.  `fuel` bounds the number of attempts. -/
def sphereRejectLoop (height radius : ℝ) (takeAbs : Bool) :
    ℕ → RState → Except Err ((ℝ × ℝ × ℝ) × RState)
  | 0, _ => .error .outOfFuel
  | fuel + 1, s =>
    let px := uniformR (-radius) radius s
    let py := uniformR (-radius) radius px.2
    let pz := uniformR (-radius) radius py.2
    let x := px.1
    let y := py.1
    let z := pz.1
    if Real.sqrt (x ^ 2 + y ^ 2 + z ^ 2) ≤ radius then
      .ok ((x, y, (if takeAbs then |z| else z) * height / radius), pz.2)
    else
      sphereRejectLoop height radius takeAbs fuel pz.2

/-- `sample_point_in_crown` (tree.py lines 58-122): a random point inside the
named crown volume. -/
def sample_point_in_crown (shape : String) (height radius : ℝ) (fuel : ℕ)
    (s : RState) : Except Err ((ℝ × ℝ × ℝ) × RState) :=
  if shape = "sphere" then
    sphereRejectLoop height radius false fuel s
  else if shape = "sphere_w_LH" then
    sphereRejectLoop height radius true fuel s
  else if shape = "cylinder" then
    let pu := draw s
    let r := radius * Real.sqrt pu.1
    let pt := uniformR 0 (2 * Real.pi) pu.2
    let theta := pt.1
    let pz := uniformR 0 height pt.2
    let z := pz.1
    .ok ((r * Real.cos theta, r * Real.sin theta, z), pz.2)
  else if shape = "cone" then
    let pz := uniformR 0 height s
    let z := pz.1
    let r_max := radius * (1 - z / height)
    let pu := draw pz.2
    let r := r_max * Real.sqrt pu.1
    let pt := uniformR 0 (2 * Real.pi) pu.2
    let theta := pt.1
    .ok ((r * Real.cos theta, r * Real.sin theta, z), pt.2)
  else
    .error .invalidParameter

/-- Trunk record (`{"base": .., "height": .., "radius": ..}`). -/
structure Trunk where
  base : ℝ × ℝ × ℝ
  height : ℝ
  radius : ℝ

/-- Leaf record (`{"center": .., "radius": .., "normal": ..}`). -/
structure Leaf where
  center : ℝ × ℝ × ℝ
  radius : ℝ
  normal : ℝ × ℝ × ℝ

/-- Tree record (`{"trunk": .., "leaves": ..}`). -/
structure Tree where
  trunk : Trunk
  leaves : List Leaf

/-- The leaf-count computation of `generate_tree` (tree.py lines 191-194):
`int((lai * (π * crown_radius**2)) / (π * leaf_radius**2))`.  Python `int`
truncates toward zero; the loop `range(n_leaves)` then runs
`(nLeaves ..).toNat` times, which agrees with truncation on every input. -/
def nLeaves (lai crown_radius leaf_radius : ℝ) : ℤ :=
  ⌊lai * (Real.pi * crown_radius ^ 2) / (Real.pi * leaf_radius ^ 2)⌋

/-- The leaf loop of `generate_tree` (tree.py lines 198-213): each iteration
samples a crown point, shifts it to world coordinates, samples a normal, and
appends one leaf. -/
def genLeaves (crown_shape : String) (crown_height crown_radius : ℝ)
    (leaf_radius : ℝ) (leaf_angle_distribution : String)
    (px py crown_base_z : ℝ) (fuel : ℕ) :
    ℕ → RState → Except Err (List Leaf × RState)
  | 0, s => .ok ([], s)
  | n + 1, s =>
    match sample_point_in_crown crown_shape crown_height crown_radius fuel s
      with
    | .error e => .error e
    | .ok (local_pos, s1) =>
      match sample_leaf_normal leaf_angle_distribution s1 with
      | .error e => .error e
      | .ok (nv, s2) =>
        match genLeaves crown_shape crown_height crown_radius leaf_radius
            leaf_angle_distribution px py crown_base_z fuel n s2 with
        | .error e => .error e
        | .ok (rest, s3) =>
          .ok (⟨(px + local_pos.1, py + local_pos.2.1,
                 crown_base_z + local_pos.2.2), leaf_radius, nv⟩ :: rest, s3)

/-- `generate_tree` (tree.py lines 129-218). -/
def generate_tree (trunk_height trunk_radius : ℝ) (crown_shape : String)
    (crown_height crown_radius lai leaf_radius : ℝ)
    (leaf_angle_distribution : String) (position : ℝ × ℝ × ℝ) (fuel : ℕ)
    (s : RState) : Except Err (Tree × RState) :=
  match genLeaves crown_shape crown_height crown_radius leaf_radius
      leaf_angle_distribution position.1 position.2.1
      (position.2.2 + trunk_height) fuel
      (nLeaves lai crown_radius leaf_radius).toNat s with
  | .error e => .error e
  | .ok (leaves, s1) =>
    .ok (⟨⟨position, trunk_height, trunk_radius⟩, leaves⟩, s1)

/-- One bundle of keyword arguments for `generate_tree`, as passed through
`tree_params` in `generate_stand` (stand.py). -/
structure TreeParams where
  trunk_height : ℝ
  trunk_radius : ℝ
  crown_shape : String
  crown_height : ℝ
  crown_radius : ℝ
  lai : ℝ
  leaf_radius : ℝ
  leaf_angle_distribution : String

/-- Apply one parameter bundle at one position: the
`generate_tree(position=position, **get_tree_params(i))` call of stand.py. -/
def genTreeAt (p : TreeParams) (position : ℝ × ℝ × ℝ) (fuel : ℕ)
    (s : RState) : Except Err (Tree × RState) :=
  generate_tree p.trunk_height p.trunk_radius p.crown_shape p.crown_height
    p.crown_radius p.lai p.leaf_radius p.leaf_angle_distribution position
    fuel s

/-- `np.linalg.norm(pos - np.array(p[:2]))`: Euclidean distance in the
xy-plane (stand.py line 95). -/
def dist2 (a b : ℝ × ℝ) : ℝ :=
  Real.sqrt ((a.1 - b.1) ^ 2 + (a.2 - b.2) ^ 2)

/-- `n_cols = int(np.ceil(np.sqrt(n_trees * plot_width / plot_length)))`
(stand.py line 69). -/
def nCols (plot_width plot_length : ℝ) (n_trees : ℕ) : ℤ :=
  ⌈Real.sqrt (n_trees * plot_width / plot_length)⌉

/-- `n_rows = int(np.ceil(n_trees / n_cols))` (stand.py line 70). -/
def nRows (plot_width plot_length : ℝ) (n_trees : ℕ) : ℤ :=
  ⌈(n_trees : ℝ) / (nCols plot_width plot_length n_trees : ℝ)⌉

/-- Inner row loop of the `uniform` branch (stand.py lines 76-84): for each
row index `j`, stop (`break`) once `count` reaches `n_trees`, else emit the
cell-centre position, generate a tree there with the bundle for the current
`count`, append it, and increment `count`. -/
def rowLoop (x_spacing y_spacing : ℝ) (i : ℕ) (n_trees : ℕ)
    (getP : ℕ → TreeParams) (fuel : ℕ) :
    List ℕ → ℕ → List Tree → RState → Except Err (ℕ × List Tree × RState)
  | [], count, acc, s => .ok (count, acc, s)
  | j :: js, count, acc, s =>
    if n_trees ≤ count then .ok (count, acc, s)
    else
      match genTreeAt (getP count)
          (x_spacing * (i + 0.5), y_spacing * (j + 0.5), 0) fuel s with
      | .error e => .error e
      | .ok (tree, s1) =>
        rowLoop x_spacing y_spacing i n_trees getP fuel js (count + 1)
          (acc ++ [tree]) s1

/-- Outer column loop of the `uniform` branch (stand.py lines 75-84). -/
def colLoop (x_spacing y_spacing : ℝ) (n_rows n_trees : ℕ)
    (getP : ℕ → TreeParams) (fuel : ℕ) :
    List ℕ → ℕ → List Tree → RState → Except Err (List Tree × RState)
  | [], _, acc, s => .ok (acc, s)
  | i :: is, count, acc, s =>
    match rowLoop x_spacing y_spacing i n_trees getP fuel
        (List.range n_rows) count acc s with
    | .error e => .error e
    | .ok (count1, acc1, s1) =>
      colLoop x_spacing y_spacing n_rows n_trees getP fuel is count1 acc1 s1

/-- Rejection loop of the `random` branch (stand.py lines 91-102).  The
source iterates `while len(positions) < n_trees and attempts < max_attempts`,
incrementing `attempts` on every draw; here `remaining` is
`max_attempts - attempts`, so the recursion is structural.  On acceptance the
tree is generated at `idx = len(tree_list)` and both lists are extended. -/
def randomLoop (plot_width plot_length min_spacing : ℝ) (n_trees : ℕ)
    (getP : ℕ → TreeParams) (fuel : ℕ) :
    ℕ → ℕ → List (ℝ × ℝ × ℝ) → List Tree → RState →
    Except Err (List (ℝ × ℝ × ℝ) × List Tree × ℕ × RState)
  | 0, attempts, positions, trees, s => .ok (positions, trees, attempts, s)
  | remaining + 1, attempts, positions, trees, s =>
    if positions.length < n_trees then
      let px := uniformR 0 plot_width s
      let x := px.1
      let py := uniformR 0 plot_length px.2
      let y := py.1
      if ∀ p ∈ positions, min_spacing ≤ dist2 (x, y) (p.1, p.2.1) then
        match genTreeAt (getP trees.length) (x, y, 0) fuel py.2 with
        | .error e => .error e
        | .ok (tree, s1) =>
          randomLoop plot_width plot_length min_spacing n_trees getP fuel
            remaining (attempts + 1) (positions ++ [(x, y, 0)])
            (trees ++ [tree]) s1
      else
        randomLoop plot_width plot_length min_spacing n_trees getP fuel
          remaining (attempts + 1) positions trees py.2
    else .ok (positions, trees, attempts, s)

/-- A junk default bundle for out-of-range indexing; `tree_params[i]` is only
ever evaluated at `i < n_trees = len(tree_params)` in the source. -/
def dfltParams : TreeParams :=
  ⟨0, 0, "", 0, 0, 0, 0, ""⟩

/-- The validation `per_tree_params and len(tree_params) != n_trees`
(stand.py lines 56-57). -/
def perTreeMismatch (tp : TreeParams ⊕ List TreeParams) (n_trees : ℕ) :
    Bool :=
  match tp with
  | .inr l => decide (l.length ≠ n_trees)
  | .inl _ => false

/-- `get_tree_params(i)` (stand.py lines 64-65): the i-th bundle when
`tree_params` is a list, the shared bundle otherwise. -/
def getParam (tp : TreeParams ⊕ List TreeParams) (i : ℕ) : TreeParams :=
  match tp with
  | .inl p => p
  | .inr l => l.getD i dfltParams

/-- `generate_stand` (stand.py lines 8-110).  `tree_params` is either one
shared bundle (`Sum.inl`, the dict case) or a per-tree list (`Sum.inr`).  The
returned `Bool` is whether the shortfall warning of line 105 was printed;
the final `RState` is the state of the random source on return. -/
def generate_stand (plot_width plot_length : ℝ) (n_trees : ℕ)
    (placement : String) (tree_params : TreeParams ⊕ List TreeParams)
    (min_spacing : ℝ) (fuel : ℕ) (s : RState) :
    Except Err (List Tree × Bool × RState) :=
  if perTreeMismatch tree_params n_trees then
    .error .invalidParameter
  else if placement = "uniform" then
    match colLoop (plot_width / ((nCols plot_width plot_length n_trees).toNat : ℝ))
        (plot_length / ((nRows plot_width plot_length n_trees).toNat : ℝ))
        (nRows plot_width plot_length n_trees).toNat n_trees
        (getParam tree_params) fuel
        (List.range (nCols plot_width plot_length n_trees).toNat) 0 [] s with
    | .ok (trees, s1) => .ok (trees, false, s1)
    | .error e => .error e
  else if placement = "random" then
    match randomLoop plot_width plot_length min_spacing n_trees
        (getParam tree_params) fuel (n_trees * 50) 0 [] [] s with
    | .ok (positions, trees, _, s1) =>
      .ok (trees, decide (positions.length < n_trees), s1)
    | .error e => .error e
  else
    .error .invalidParameter

/-- The grid position list as the specification words it: `n_cols` columns by
`n_rows` rows, scan order with the column index `i` outermost, position
`((i+0.5)·plot_width/n_cols, (j+0.5)·plot_length/n_rows, 0)`, truncated to the
first `n_trees` cells.  This is the spec-side description that the uniform
branch of `generate_stand` is compared against. -/
def specGridPositions (plot_width plot_length : ℝ) (n_trees : ℕ) :
    List (ℝ × ℝ × ℝ) :=
  (((List.range (nCols plot_width plot_length n_trees).toNat).map
    (fun i : ℕ =>
      (List.range (nRows plot_width plot_length n_trees).toNat).map
        (fun j : ℕ =>
          (((i : ℝ) + 0.5) * plot_width /
             ((nCols plot_width plot_length n_trees).toNat : ℝ),
           ((j : ℝ) + 0.5) * plot_length /
             ((nRows plot_width plot_length n_trees).toNat : ℝ),
           (0 : ℝ))))).flatten).take n_trees

/-- A concrete random source for witnesses: every raw draw is `1/2`. -/
def s0 : RState :=
  ⟨fun _ => 1 / 2, 0⟩

/-- The point returned by the cylinder branch of `sample_point_in_crown` with
`height = radius = 1` on the all-halves source `s0`, written exactly as the
sampler produces it. -/
def c8p : ℝ × ℝ × ℝ :=
  (1 * Real.sqrt (1 / 2) * Real.cos (0 + 1 / 2 * (2 * Real.pi - 0)),
   1 * Real.sqrt (1 / 2) * Real.sin (0 + 1 / 2 * (2 * Real.pi - 0)),
   0 + 1 / 2 * (1 - 0))

/-- A concrete parameter bundle with trunk height 4 and a zero leaf area
index, used in witnesses. -/
def p4 : TreeParams :=
  ⟨4, 1, "cylinder", 3, 2, 0, 1, "planophile"⟩

theorem s0_good : goodStream s0 := by
  intro n
  exact ⟨by norm_num [s0], by norm_num [s0]⟩

theorem unitNormAux (c phi : ℝ) (h : c ^ 2 ≤ 1) :
    Real.sqrt ((Real.sqrt (1 - c ^ 2) * Real.cos phi) ^ 2 +
      (Real.sqrt (1 - c ^ 2) * Real.sin phi) ^ 2 + c ^ 2) = 1 := by
  have h1 : (0 : ℝ) ≤ 1 - c ^ 2 := by linarith
  have hs : Real.sqrt (1 - c ^ 2) ^ 2 = 1 - c ^ 2 := Real.sq_sqrt h1
  have ht : Real.cos phi ^ 2 + Real.sin phi ^ 2 = 1 :=
    Real.cos_sq_add_sin_sq phi
  have hsum : (Real.sqrt (1 - c ^ 2) * Real.cos phi) ^ 2 +
      (Real.sqrt (1 - c ^ 2) * Real.sin phi) ^ 2 + c ^ 2 = 1 := by
    have expand : (Real.sqrt (1 - c ^ 2) * Real.cos phi) ^ 2 +
        (Real.sqrt (1 - c ^ 2) * Real.sin phi) ^ 2 + c ^ 2 =
        Real.sqrt (1 - c ^ 2) ^ 2 * (Real.cos phi ^ 2 + Real.sin phi ^ 2) +
          c ^ 2 := by
      ring
    rw [expand, hs, ht]
    ring
  rw [hsum, Real.sqrt_one]

/-- Claim C9: with `"uniform"` or `"spherical"` the sampled leaf normal
`(sinθ·cosφ, sinθ·sinφ, cosθ)` has norm exactly 1 in real arithmetic;
`"planophile"` always returns `(0,0,1)` and `"erectophile"` always returns
`(1,0,0)`. -/
theorem c9_sample_leaf_normal_spec :
    (∀ (d : String) (s : RState) (v : ℝ × ℝ × ℝ) (s1 : RState),
      goodStream s → (d = "uniform" ∨ d = "spherical") →
      sample_leaf_normal d s = .ok (v, s1) →
      Real.sqrt (v.1 ^ 2 + v.2.1 ^ 2 + v.2.2 ^ 2) = 1) ∧
    (∀ s : RState, sample_leaf_normal "planophile" s = .ok ((0, 0, 1), s)) ∧
    (∀ s : RState, sample_leaf_normal "erectophile" s = .ok ((1, 0, 0), s)) := by
  refine ⟨?_, fun s => rfl, fun s => rfl⟩
  intro d s v s1 hgs hd h
  unfold sample_leaf_normal at h
  rw [if_pos hd] at h
  simp only [uniformR, draw] at h
  simp only [Except.ok.injEq, Prod.mk.injEq] at h
  obtain ⟨hv, -⟩ := h
  rw [← hv]
  have hu := hgs (s.idx + 1)
  have hc : (-1 + s.vals (s.idx + 1) * (1 - -1)) ^ 2 ≤ 1 := by
    nlinarith [hu.1, hu.2, mul_nonneg hu.1
      (by linarith [hu.2] : (0 : ℝ) ≤ 1 - s.vals (s.idx + 1))]
  exact unitNormAux _ _ hc

theorem sln_invalid (d : String) (s : RState)
    (h1 : ¬(d = "uniform" ∨ d = "spherical")) (h2 : d ≠ "planophile")
    (h3 : d ≠ "erectophile") :
    sample_leaf_normal d s = .error .invalidParameter := by
  unfold sample_leaf_normal
  rw [if_neg h1, if_neg h2, if_neg h3]

theorem spc_invalid (shape : String) (h r : ℝ) (fuel : ℕ) (s : RState)
    (h1 : shape ≠ "sphere") (h2 : shape ≠ "sphere_w_LH")
    (h3 : shape ≠ "cylinder") (h4 : shape ≠ "cone") :
    sample_point_in_crown shape h r fuel s = .error .invalidParameter := by
  unfold sample_point_in_crown
  rw [if_neg h1, if_neg h2, if_neg h3, if_neg h4]

/-- Claim C6: every unsupported enum value makes the corresponding operation
fail with the invalid-parameter error and never falls into a default branch:
`sample_leaf_normal` on an unknown distribution, `sample_point_in_crown` on an
unknown shape, `generate_stand` on an unknown placement. -/
theorem c6_unsupported_enum_fails :
    (∀ (d : String) (s : RState),
      d ∉ (["uniform", "spherical", "planophile", "erectophile"] :
        List String) →
      sample_leaf_normal d s = .error .invalidParameter) ∧
    (∀ (shape : String) (h r : ℝ) (fuel : ℕ) (s : RState),
      shape ∉ (["sphere", "sphere_w_LH", "cylinder", "cone"] : List String) →
      sample_point_in_crown shape h r fuel s = .error .invalidParameter) ∧
    (∀ (pw pl : ℝ) (n : ℕ) (placement : String)
      (params : TreeParams ⊕ List TreeParams) (ms : ℝ) (fuel : ℕ)
      (s : RState),
      placement ∉ (["uniform", "random"] : List String) →
      generate_stand pw pl n placement params ms fuel s =
        .error .invalidParameter) := by
  refine ⟨?_, ?_, ?_⟩
  · intro d s hmem
    simp only [List.mem_cons, List.not_mem_nil, or_false, not_or] at hmem
    exact sln_invalid d s (by tauto) hmem.2.2.1 hmem.2.2.2
  · intro shape h r fuel s hmem
    simp only [List.mem_cons, List.not_mem_nil, or_false, not_or] at hmem
    exact spc_invalid shape h r fuel s hmem.1 hmem.2.1 hmem.2.2.1 hmem.2.2.2
  · intro pw pl n placement params ms fuel s hmem
    simp only [List.mem_cons, List.not_mem_nil, or_false, not_or] at hmem
    unfold generate_stand
    split
    · rfl
    · simp only [if_neg hmem.1, if_neg hmem.2]

/-- Claim C6 witness at `"weird"`, `"pyramid"`, `"hexagonal"`. -/
theorem c6_witness :
    sample_leaf_normal "weird" s0 = .error .invalidParameter ∧
    sample_point_in_crown "pyramid" 1 1 1 s0 = .error .invalidParameter ∧
    generate_stand 10 10 1 "hexagonal" (.inl p4) 1 1 s0 =
      .error .invalidParameter :=
  ⟨c6_unsupported_enum_fails.1 "weird" s0 (by simp),
   c6_unsupported_enum_fails.2.1 "pyramid" 1 1 1 s0 (by simp),
   c6_unsupported_enum_fails.2.2 10 10 1 "hexagonal" (.inl p4) 1 1 s0
     (by simp)⟩

theorem nLeaves_toNat_zero (lai cr lr : ℝ) (hlr : 0 < lr)
    (hsmall : lai * cr ^ 2 < lr ^ 2) : (nLeaves lai cr lr).toNat = 0 := by
  have hlr2 : (0 : ℝ) < lr ^ 2 := by positivity
  have hratio : lai * (Real.pi * cr ^ 2) / (Real.pi * lr ^ 2) =
      lai * cr ^ 2 / lr ^ 2 := by
    rw [div_eq_div_iff (by positivity : (0:ℝ) < Real.pi * lr ^ 2).ne' hlr2.ne']
    ring
  have hlt1 : lai * cr ^ 2 / lr ^ 2 < 1 := (div_lt_one hlr2).mpr hsmall
  have hfl : nLeaves lai cr lr < 1 := by
    rw [nLeaves, hratio]
    exact Int.floor_lt.mpr (by push_cast; linarith)
  exact Int.toNat_eq_zero.mpr (by omega)

theorem generate_tree_no_leaves (th tr ch cr lai lr : ℝ) (shape lad : String)
    (pos : ℝ × ℝ × ℝ) (fuel : ℕ) (s : RState) (hlr : 0 < lr)
    (hsmall : lai * cr ^ 2 < lr ^ 2) :
    generate_tree th tr shape ch cr lai lr lad pos fuel s =
      .ok (⟨⟨pos, th, tr⟩, []⟩, s) := by
  unfold generate_tree
  rw [nLeaves_toNat_zero lai cr lr hlr hsmall]
  simp only [genLeaves]

/-- Claim C10: when the derived leaf count is zero (`lai·cr² < lr²`, e.g.
`lai = 0`), `generate_tree` returns a tree with an empty leaves list and
raises no error at all, whatever the `crown_shape` and
`leaf_angle_distribution` strings are — the samplers are never invoked, so
enum validity goes unchecked, and the random source is untouched. -/
theorem c10_zero_leaves_unvalidated (th tr ch cr lai lr : ℝ)
    (shape lad : String) (pos : ℝ × ℝ × ℝ) (fuel : ℕ) (s : RState)
    (hlr : 0 < lr) (hsmall : lai * cr ^ 2 < lr ^ 2) :
    generate_tree th tr shape ch cr lai lr lad pos fuel s =
      .ok (⟨⟨pos, th, tr⟩, []⟩, s) :=
  generate_tree_no_leaves th tr ch cr lai lr shape lad pos fuel s hlr hsmall

/-- Claim C10 witness: `lai = 0` with the unsupported strings `"pyramid"` and
`"weird"` still yields an empty-leaved tree with no error. -/
theorem c10_witness :
    generate_tree 1 1 "pyramid" 1 1 0 1 "weird" (0, 0, 0) 7 s0 =
      .ok (⟨⟨(0, 0, 0), 1, 1⟩, []⟩, s0) :=
  c10_zero_leaves_unvalidated 1 1 1 1 0 1 "pyramid" "weird" (0, 0, 0) 7 s0
    one_pos (by norm_num)

theorem genLeaves_length (cs : String) (ch cr lr : ℝ) (lad : String)
    (px py cbz : ℝ) (fuel : ℕ) :
    ∀ (n : ℕ) (s : RState) (l : List Leaf) (s1 : RState),
      genLeaves cs ch cr lr lad px py cbz fuel n s = .ok (l, s1) →
      l.length = n := by
  intro n
  induction n with
  | zero =>
    intro s l s1 h
    simp only [genLeaves, Except.ok.injEq, Prod.mk.injEq] at h
    rw [← h.1]
    rfl
  | succ n ih =>
    intro s l s1 h
    simp only [genLeaves] at h
    split at h
    · exact absurd h (by simp)
    · split at h
      · exact absurd h (by simp)
      · split at h
        · exact absurd h (by simp)
        · rename_i hg
          simp only [Except.ok.injEq, Prod.mk.injEq] at h
          rw [← h.1]
          simp only [List.length_cons]
          rw [ih _ _ _ hg]

theorem generate_tree_ok (th tr ch cr lai lr : ℝ) (shape lad : String)
    (pos : ℝ × ℝ × ℝ) (fuel : ℕ) (s : RState) (t : Tree) (s1 : RState)
    (h : generate_tree th tr shape ch cr lai lr lad pos fuel s = .ok (t, s1)) :
    t.trunk = ⟨pos, th, tr⟩ ∧
    t.leaves.length = (nLeaves lai cr lr).toNat := by
  unfold generate_tree at h
  split at h
  · exact absurd h (by simp)
  · rename_i hg
    simp only [Except.ok.injEq, Prod.mk.injEq] at h
    rw [← h.1]
    exact ⟨rfl, genLeaves_length _ _ _ _ _ _ _ _ _ _ _ _ _ hg⟩

/-- Claim C1: whenever `generate_tree` returns a tree and `lai ≥ 0`,
`crown_radius > 0`, `leaf_radius > 0`, the number of leaves equals
`floor(lai·π·crown_radius² / (π·leaf_radius²))`; in particular
`crown_radius = 2`, `leaf_radius = 0.1`, `lai = 3` gives exactly 1200
leaves. -/
theorem c1_leaf_count :
    (∀ (th tr ch cr lai lr : ℝ) (shape lad : String) (pos : ℝ × ℝ × ℝ)
      (fuel : ℕ) (s : RState) (t : Tree) (s1 : RState),
      0 ≤ lai → 0 < cr → 0 < lr →
      generate_tree th tr shape ch cr lai lr lad pos fuel s = .ok (t, s1) →
      (t.leaves.length : ℤ) = nLeaves lai cr lr) ∧
    nLeaves 3 2 (1 / 10) = 1200 := by
  constructor
  · intro th tr ch cr lai lr shape lad pos fuel s t s1 hlai hcr hlr h
    have hlen :=
      (generate_tree_ok th tr ch cr lai lr shape lad pos fuel s t s1 h).2
    have hnn : 0 ≤ nLeaves lai cr lr := by
      apply Int.floor_nonneg.mpr
      have hnum : 0 ≤ lai * (Real.pi * cr ^ 2) :=
        mul_nonneg hlai (by positivity)
      exact div_nonneg hnum (by positivity)
    rw [hlen, Int.toNat_of_nonneg hnn]
  · have h12 : (3 : ℝ) * (Real.pi * 2 ^ 2) / (Real.pi * (1 / 10) ^ 2) =
        (1200 : ℤ) := by
      rw [div_eq_iff (by positivity : (0:ℝ) < Real.pi * (1 / 10) ^ 2).ne']
      push_cast
      ring
    rw [nLeaves, h12, Int.floor_intCast]

/-- Claim C1 witness: a concrete run (zero leaf area index, so the leaf list
is empty) instantiating the leaf-count equation. -/
theorem c1_witness :
    (0 : ℝ) ≤ 0 ∧ ((([] : List Leaf).length : ℤ) = nLeaves 0 1 1) :=
  ⟨le_rfl,
    c1_leaf_count.1 1 1 1 1 0 1 "cylinder" "planophile" (0, 0, 0) 1 s0
      ⟨⟨(0, 0, 0), 1, 1⟩, []⟩ s0 le_rfl one_pos one_pos
      (generate_tree_no_leaves 1 1 1 1 0 1 "cylinder" "planophile" (0, 0, 0)
        1 s0 one_pos (by norm_num))⟩

/-- Claim C2 counterexample: a call with the unsupported crown shape
`"pyramid"` but leaf count zero returns a (leafless) tree instead of failing
with the invalid-parameter error, so the claim as stated is false. -/
theorem c2_counterexample :
    generate_tree 1 1 "pyramid" 1 1 0 1 "uniform" (0, 0, 0) 1 s0 =
      .ok (⟨⟨(0, 0, 0), 1, 1⟩, []⟩, s0) ∧
    generate_tree 1 1 "pyramid" 1 1 0 1 "uniform" (0, 0, 0) 1 s0 ≠
      .error .invalidParameter := by
  have h := generate_tree_no_leaves 1 1 1 1 0 1 "pyramid" "uniform" (0, 0, 0)
    1 s0 one_pos (by norm_num)
  exact ⟨h, by rw [h]; exact fun hc => by cases hc⟩

theorem nLeaves_one : nLeaves 1 1 1 = 1 := by
  have h1 : (1 : ℝ) * (Real.pi * 1 ^ 2) / (Real.pi * 1 ^ 2) = (1 : ℤ) := by
    rw [div_eq_iff (by positivity : (0:ℝ) < Real.pi * 1 ^ 2).ne']
    push_cast
    ring
  rw [nLeaves, h1, Int.floor_intCast]

/-- Claim C2 (amended): when the derived leaf count is at least 1, an
unsupported `crown_shape` makes `generate_tree` fail with the
invalid-parameter error before any tree is built, and an unsupported
`leaf_angle_distribution` never yields a tree: the call fails with the
invalid-parameter error, except that for the sphere shapes the crown sampler
may reject forever first (fuel exhaustion in the model).  With a zero leaf
count the samplers are never reached (see the counterexample). -/
theorem c2_amended_invalid_enum_no_tree (th tr ch cr lai lr : ℝ)
    (shape lad : String) (pos : ℝ × ℝ × ℝ) (fuel : ℕ) (s : RState)
    (hn : 1 ≤ (nLeaves lai cr lr).toNat) :
    (shape ∉ (["sphere", "sphere_w_LH", "cylinder", "cone"] : List String) →
      generate_tree th tr shape ch cr lai lr lad pos fuel s =
        .error .invalidParameter) ∧
    (lad ∉ (["uniform", "spherical", "planophile", "erectophile"] :
        List String) →
      generate_tree th tr shape ch cr lai lr lad pos fuel s =
        .error .invalidParameter ∨
      generate_tree th tr shape ch cr lai lr lad pos fuel s =
        .error .outOfFuel) := by
  obtain ⟨m, hm⟩ : ∃ m, (nLeaves lai cr lr).toNat = m + 1 :=
    ⟨(nLeaves lai cr lr).toNat - 1, by omega⟩
  constructor
  · intro hmem
    simp only [List.mem_cons, List.not_mem_nil, or_false, not_or] at hmem
    unfold generate_tree
    rw [hm]
    simp only [genLeaves]
    rw [spc_invalid shape ch cr fuel s hmem.1 hmem.2.1 hmem.2.2.1
      hmem.2.2.2]
  · intro hmem
    simp only [List.mem_cons, List.not_mem_nil, or_false, not_or] at hmem
    unfold generate_tree
    rw [hm]
    simp only [genLeaves]
    cases hsp : sample_point_in_crown shape ch cr fuel s with
    | error e =>
      cases e
      · exact Or.inl rfl
      · exact Or.inr rfl
    | ok v =>
      obtain ⟨lp, s2⟩ := v
      dsimp only
      rw [sln_invalid lad s2 (by simp [hmem.1, hmem.2.1]) hmem.2.2.1
        hmem.2.2.2]
      exact Or.inl rfl

/-- Claim C2 witness for the amended statement: leaf count 1 and crown shape
`"pyramid"` fail with the invalid-parameter error. -/
theorem c2_witness :
    ("pyramid" ∉ (["sphere", "sphere_w_LH", "cylinder", "cone"] :
      List String)) ∧
    generate_tree 1 1 "pyramid" 1 1 1 1 "planophile" (0, 0, 0) 1 s0 =
      .error .invalidParameter := by
  refine ⟨by simp, ?_⟩
  exact (c2_amended_invalid_enum_no_tree 1 1 1 1 1 1 "pyramid" "planophile"
    (0, 0, 0) 1 s0 (by rw [nLeaves_one]; decide)).1 (by simp)

/-- Claim C9 witness: one concrete `"uniform"` draw on the all-halves source
has unit norm. -/
theorem c9_witness :
    goodStream s0 ∧
    Real.sqrt ((Real.sqrt (1 - (-1 + 1 / 2 * (1 - -1)) ^ 2) *
        Real.cos (0 + 1 / 2 * (2 * Real.pi - 0))) ^ 2 +
      (Real.sqrt (1 - (-1 + 1 / 2 * (1 - -1)) ^ 2) *
        Real.sin (0 + 1 / 2 * (2 * Real.pi - 0))) ^ 2 +
      (-1 + 1 / 2 * (1 - -1)) ^ 2) = 1 :=
  ⟨s0_good,
    c9_sample_leaf_normal_spec.1 "uniform" s0
      (Real.sqrt (1 - (-1 + 1 / 2 * (1 - -1)) ^ 2) *
          Real.cos (0 + 1 / 2 * (2 * Real.pi - 0)),
        Real.sqrt (1 - (-1 + 1 / 2 * (1 - -1)) ^ 2) *
          Real.sin (0 + 1 / 2 * (2 * Real.pi - 0)),
        -1 + 1 / 2 * (1 - -1))
      ⟨s0.vals, 2⟩ s0_good (Or.inl rfl) rfl⟩

theorem xyNormAux (a θ : ℝ) :
    Real.sqrt ((a * Real.cos θ) ^ 2 + (a * Real.sin θ) ^ 2) = |a| := by
  have h : (a * Real.cos θ) ^ 2 + (a * Real.sin θ) ^ 2 = a ^ 2 := by
    have ht : Real.cos θ ^ 2 + Real.sin θ ^ 2 = 1 := Real.cos_sq_add_sin_sq θ
    calc (a * Real.cos θ) ^ 2 + (a * Real.sin θ) ^ 2
        = a ^ 2 * (Real.cos θ ^ 2 + Real.sin θ ^ 2) := by ring
      _ = a ^ 2 := by rw [ht, mul_one]
  rw [h, Real.sqrt_sq_eq_abs]

theorem sphereAcceptBounds (x y z hgt r : ℝ) (hr : 0 < r) (hh : 0 ≤ hgt)
    (hacc : Real.sqrt (x ^ 2 + y ^ 2 + z ^ 2) ≤ r) (b : Bool) :
    Real.sqrt (x ^ 2 + y ^ 2) ≤ r ∧
    |(if b then |z| else z) * hgt / r| ≤ hgt ∧
    (b = true → 0 ≤ (if b then |z| else z) * hgt / r) := by
  have hsum : x ^ 2 + y ^ 2 + z ^ 2 ≤ r ^ 2 := by
    have h0 : (0 : ℝ) ≤ x ^ 2 + y ^ 2 + z ^ 2 := by positivity
    calc x ^ 2 + y ^ 2 + z ^ 2
        = Real.sqrt (x ^ 2 + y ^ 2 + z ^ 2) ^ 2 := (Real.sq_sqrt h0).symm
      _ ≤ r ^ 2 := pow_le_pow_left₀ (Real.sqrt_nonneg _) hacc 2
  have hz : |z| ≤ r := by
    have hz2 : z ^ 2 ≤ r ^ 2 := by nlinarith [sq_nonneg x, sq_nonneg y]
    calc |z| = Real.sqrt (z ^ 2) := (Real.sqrt_sq_eq_abs z).symm
      _ ≤ Real.sqrt (r ^ 2) := Real.sqrt_le_sqrt hz2
      _ = r := Real.sqrt_sq hr.le
  refine ⟨?_, ?_, ?_⟩
  · exact (Real.sqrt_le_left hr.le).mpr (by nlinarith [sq_nonneg z])
  · have habs : |(if b then |z| else z)| = |z| := by
      cases b <;> simp [abs_abs]
    rw [abs_div, abs_mul, habs, abs_of_nonneg hh, abs_of_pos hr,
      div_le_iff₀ hr]
    calc |z| * hgt ≤ r * hgt := mul_le_mul_of_nonneg_right hz hh
      _ = hgt * r := mul_comm r hgt
  · intro hb
    rw [if_pos hb]
    exact div_nonneg (mul_nonneg (abs_nonneg z) hh) hr.le

theorem sphereRejectLoop_bounds (hgt r : ℝ) (b : Bool) (hr : 0 < r)
    (hh : 0 ≤ hgt) :
    ∀ (fuel : ℕ) (s : RState) (p : ℝ × ℝ × ℝ) (s1 : RState),
      sphereRejectLoop hgt r b fuel s = .ok (p, s1) →
      Real.sqrt (p.1 ^ 2 + p.2.1 ^ 2) ≤ r ∧ |p.2.2| ≤ hgt ∧
        (b = true → 0 ≤ p.2.2) := by
  intro fuel
  induction fuel with
  | zero =>
    intro s p s1 h
    exact absurd h (by simp [sphereRejectLoop])
  | succ fuel ih =>
    intro s p s1 h
    simp only [sphereRejectLoop] at h
    split at h
    · rename_i hacc
      simp only [Except.ok.injEq, Prod.mk.injEq] at h
      obtain ⟨hp, -⟩ := h
      rw [← hp]
      exact sphereAcceptBounds _ _ _ hgt r hr hh hacc b
    · exact ih _ _ _ h

/-- Claim C8: every point returned by `sample_point_in_crown` (given a random
source of `[0,1)` draws, `height > 0`, `radius > 0`) satisfies in exact real
arithmetic: xy-radius at most `radius`; `|z| ≤ height` for the sphere shapes
with additionally `z ≥ 0` for `sphere_w_LH`; `0 ≤ z ≤ height` for cylinder
and cone; and for the cone additionally xy-radius at most
`radius · (1 − z/height)`. -/
theorem c8_crown_point_bounds (shape : String) (height radius : ℝ)
    (fuel : ℕ) (s : RState) (p : ℝ × ℝ × ℝ) (s1 : RState)
    (hgs : goodStream s) (hh : 0 < height) (hr : 0 < radius)
    (hok : sample_point_in_crown shape height radius fuel s = .ok (p, s1)) :
    Real.sqrt (p.1 ^ 2 + p.2.1 ^ 2) ≤ radius ∧
    ((shape = "sphere" ∨ shape = "sphere_w_LH") → |p.2.2| ≤ height) ∧
    (shape = "sphere_w_LH" → 0 ≤ p.2.2) ∧
    ((shape = "cylinder" ∨ shape = "cone") →
      0 ≤ p.2.2 ∧ p.2.2 ≤ height) ∧
    (shape = "cone" →
      Real.sqrt (p.1 ^ 2 + p.2.1 ^ 2) ≤ radius * (1 - p.2.2 / height)) := by
  unfold sample_point_in_crown at hok
  split_ifs at hok with h1 h2 h3 h4
  · -- sphere
    subst h1
    have hb := sphereRejectLoop_bounds height radius false hr hh.le fuel s
      p s1 hok
    refine ⟨hb.1, fun _ => hb.2.1, fun hc => absurd hc (by decide),
      fun hc => ?_, fun hc => absurd hc (by decide)⟩
    rcases hc with hc | hc <;> exact absurd hc (by decide)
  · -- sphere_w_LH
    subst h2
    have hb := sphereRejectLoop_bounds height radius true hr hh.le fuel s
      p s1 hok
    refine ⟨hb.1, fun _ => hb.2.1, fun _ => hb.2.2 rfl,
      fun hc => ?_, fun hc => absurd hc (by decide)⟩
    rcases hc with hc | hc <;> exact absurd hc (by decide)
  · -- cylinder
    subst h3
    simp only [uniformR, draw] at hok
    simp only [Except.ok.injEq, Prod.mk.injEq] at hok
    obtain ⟨hp, -⟩ := hok
    rw [← hp]
    dsimp only
    have hu0 := hgs s.idx
    have hu2 := hgs (s.idx + 1 + 1)
    have hxy : Real.sqrt
        ((radius * Real.sqrt (s.vals s.idx) *
            Real.cos (0 + s.vals (s.idx + 1) * (2 * Real.pi - 0))) ^ 2 +
          (radius * Real.sqrt (s.vals s.idx) *
            Real.sin (0 + s.vals (s.idx + 1) * (2 * Real.pi - 0))) ^ 2) ≤
        radius := by
      rw [xyNormAux, abs_of_nonneg (mul_nonneg hr.le (Real.sqrt_nonneg _))]
      calc radius * Real.sqrt (s.vals s.idx)
          ≤ radius * 1 := mul_le_mul_of_nonneg_left
            (Real.sqrt_le_one.mpr hu0.2.le) hr.le
        _ = radius := mul_one radius
    have hz0 : 0 ≤ 0 + s.vals (s.idx + 1 + 1) * (height - 0) := by
      have := mul_nonneg hu2.1 (by linarith : (0:ℝ) ≤ height - 0)
      linarith
    have hzh : 0 + s.vals (s.idx + 1 + 1) * (height - 0) ≤ height := by
      have := mul_le_mul_of_nonneg_right hu2.2.le
        (by linarith : (0:ℝ) ≤ height - 0)
      linarith
    refine ⟨hxy, fun hc => ?_, fun hc => ?_, fun _ => ⟨hz0, hzh⟩,
      fun hc => ?_⟩
    · rcases hc with hc | hc <;> exact absurd hc (by decide)
    · exact absurd hc (by decide)
    · exact absurd hc (by decide)
  · -- cone
    subst h4
    simp only [uniformR, draw] at hok
    simp only [Except.ok.injEq, Prod.mk.injEq] at hok
    obtain ⟨hp, -⟩ := hok
    rw [← hp]
    dsimp only
    have hu0 := hgs s.idx
    have hu1 := hgs (s.idx + 1)
    have hz0 : 0 ≤ 0 + s.vals s.idx * (height - 0) := by
      have := mul_nonneg hu0.1 (by linarith : (0:ℝ) ≤ height - 0)
      linarith
    have hzh : 0 + s.vals s.idx * (height - 0) ≤ height := by
      have := mul_le_mul_of_nonneg_right hu0.2.le
        (by linarith : (0:ℝ) ≤ height - 0)
      linarith
    have hfac : 0 ≤ 1 - (0 + s.vals s.idx * (height - 0)) / height := by
      have hd1 : (0 + s.vals s.idx * (height - 0)) / height ≤ 1 :=
        (div_le_one hh).mpr hzh
      linarith
    have hrmax : 0 ≤ radius * (1 - (0 + s.vals s.idx * (height - 0)) / height)
      := mul_nonneg hr.le hfac
    have hxyc : Real.sqrt
        ((radius * (1 - (0 + s.vals s.idx * (height - 0)) / height) *
            Real.sqrt (s.vals (s.idx + 1)) *
            Real.cos (0 + s.vals (s.idx + 1 + 1) * (2 * Real.pi - 0))) ^ 2 +
          (radius * (1 - (0 + s.vals s.idx * (height - 0)) / height) *
            Real.sqrt (s.vals (s.idx + 1)) *
            Real.sin (0 + s.vals (s.idx + 1 + 1) * (2 * Real.pi - 0))) ^ 2) ≤
        radius * (1 - (0 + s.vals s.idx * (height - 0)) / height) := by
      rw [xyNormAux,
        abs_of_nonneg (mul_nonneg hrmax (Real.sqrt_nonneg _))]
      calc radius * (1 - (0 + s.vals s.idx * (height - 0)) / height) *
            Real.sqrt (s.vals (s.idx + 1))
          ≤ radius * (1 - (0 + s.vals s.idx * (height - 0)) / height) * 1 :=
            mul_le_mul_of_nonneg_left (Real.sqrt_le_one.mpr hu1.2.le) hrmax
        _ = radius * (1 - (0 + s.vals s.idx * (height - 0)) / height) :=
            mul_one _
    have hback : radius * (1 - (0 + s.vals s.idx * (height - 0)) / height) ≤
        radius := by
      have hd0 : 0 ≤ (0 + s.vals s.idx * (height - 0)) / height :=
        div_nonneg hz0 hh.le
      calc radius * (1 - (0 + s.vals s.idx * (height - 0)) / height)
          ≤ radius * 1 := mul_le_mul_of_nonneg_left (by linarith) hr.le
        _ = radius := mul_one radius
    refine ⟨hxyc.trans hback, fun hc => ?_, fun hc => ?_,
      fun _ => ⟨hz0, hzh⟩, fun _ => hxyc⟩
    · rcases hc with hc | hc <;> exact absurd hc (by decide)
    · exact absurd hc (by decide)

/-- Claim C8 witness: the concrete cylinder sample `c8p` drawn on the
all-halves source satisfies the bounds. -/
theorem c8_witness :
    goodStream s0 ∧
    Real.sqrt (c8p.1 ^ 2 + c8p.2.1 ^ 2) ≤ 1 ∧
    (0 ≤ c8p.2.2 ∧ c8p.2.2 ≤ 1) :=
  ⟨s0_good,
    (c8_crown_point_bounds "cylinder" 1 1 1 s0 c8p ⟨s0.vals, 3⟩ s0_good
      one_pos one_pos rfl).1,
    (c8_crown_point_bounds "cylinder" 1 1 1 s0 c8p ⟨s0.vals, 3⟩ s0_good
      one_pos one_pos rfl).2.2.2.1 (Or.inl rfl)⟩

theorem genTreeAt_ok (p : TreeParams) (pos : ℝ × ℝ × ℝ) (fuel : ℕ)
    (s : RState) (t : Tree) (s1 : RState)
    (h : genTreeAt p pos fuel s = .ok (t, s1)) :
    t.trunk = ⟨pos, p.trunk_height, p.trunk_radius⟩ :=
  (generate_tree_ok _ _ _ _ _ _ _ _ _ _ _ _ _ h).1

theorem rowLoop_ok (xs ys : ℝ) (i n : ℕ) (getP : ℕ → TreeParams)
    (fuel : ℕ) :
    ∀ (js : List ℕ) (count : ℕ) (acc : List Tree) (s : RState)
      (count1 : ℕ) (acc1 : List Tree) (s1 : RState),
      rowLoop xs ys i n getP fuel js count acc s = .ok (count1, acc1, s1) →
      ∃ new : List Tree,
        acc1 = acc ++ new ∧
        count1 = count + new.length ∧
        new.map (fun t => t.trunk.base) =
          (js.map (fun j : ℕ =>
            (xs * ((i : ℝ) + 0.5), ys * ((j : ℝ) + 0.5), (0 : ℝ)))).take
            (n - count) ∧
        ∀ (k : ℕ) (hk : k < new.length),
          new[k].trunk.height = (getP (count + k)).trunk_height ∧
          new[k].trunk.radius = (getP (count + k)).trunk_radius := by
  intro js
  induction js with
  | nil =>
    intro count acc s count1 acc1 s1 h
    simp only [rowLoop, Except.ok.injEq, Prod.mk.injEq] at h
    refine ⟨[], by rw [← h.2.1]; simp, by rw [← h.1]; simp, by simp,
      fun k hk => absurd hk (by simp)⟩
  | cons j js ih =>
    intro count acc s count1 acc1 s1 h
    simp only [rowLoop] at h
    split_ifs at h with hc
    · -- count has reached n_trees: break
      simp only [Except.ok.injEq, Prod.mk.injEq] at h
      have hz : n - count = 0 := Nat.sub_eq_zero_of_le hc
      refine ⟨[], by rw [← h.2.1]; simp, by rw [← h.1]; simp,
        by rw [hz]; simp, fun k hk => absurd hk (by simp)⟩
    · split at h
      · exact absurd h (by simp)
      · rename_i t s2 hgen
        obtain ⟨new, hacc, hcount, hbases, hparams⟩ :=
          ih (count + 1) (acc ++ [t]) s2 count1 acc1 s1 h
        have htrunk := genTreeAt_ok (getP count) _ fuel s t s2 hgen
        refine ⟨t :: new, ?_, ?_, ?_, ?_⟩
        · rw [hacc, List.append_assoc, List.singleton_append]
        · rw [hcount, List.length_cons]
          omega
        · simp only [List.map_cons]
          rw [hbases]
          have hsub : n - count = (n - (count + 1)) + 1 := by omega
          rw [hsub, List.take_succ_cons, htrunk]
        · intro k hk
          cases k with
          | zero =>
            simp [List.getElem_cons_zero, htrunk]
          | succ k =>
            have hk' : k < new.length := by
              simpa using Nat.lt_of_succ_lt_succ hk
            have := hparams k hk'
            simp only [List.getElem_cons_succ]
            rw [show count + (k + 1) = count + 1 + k by omega]
            exact this

theorem colLoop_ok (xs ys : ℝ) (rows n : ℕ) (getP : ℕ → TreeParams)
    (fuel : ℕ) :
    ∀ (is : List ℕ) (count : ℕ) (acc : List Tree) (s : RState)
      (ts : List Tree) (s1 : RState),
      colLoop xs ys rows n getP fuel is count acc s = .ok (ts, s1) →
      ∃ new : List Tree,
        ts = acc ++ new ∧
        new.map (fun t => t.trunk.base) =
          ((is.map (fun i : ℕ => (List.range rows).map (fun j : ℕ =>
            (xs * ((i : ℝ) + 0.5), ys * ((j : ℝ) + 0.5),
              (0 : ℝ))))).flatten).take (n - count) ∧
        ∀ (k : ℕ) (hk : k < new.length),
          new[k].trunk.height = (getP (count + k)).trunk_height ∧
          new[k].trunk.radius = (getP (count + k)).trunk_radius := by
  intro is
  induction is with
  | nil =>
    intro count acc s ts s1 h
    simp only [colLoop, Except.ok.injEq, Prod.mk.injEq] at h
    exact ⟨[], by rw [← h.1]; simp, by simp,
      fun k hk => absurd hk (by simp)⟩
  | cons i is ih =>
    intro count acc s ts s1 h
    simp only [colLoop] at h
    split at h
    · exact absurd h (by simp)
    · rename_i count2 acc2 s2 hrow
      obtain ⟨new1, hacc1, hcount1, hbases1, hparams1⟩ :=
        rowLoop_ok xs ys i n getP fuel (List.range rows) count acc s
          count2 acc2 s2 hrow
      obtain ⟨new2, hacc2, hbases2, hparams2⟩ :=
        ih count2 acc2 s2 ts s1 h
      have hlen1 : new1.length = min (n - count) rows := by
        have hcl := congrArg List.length hbases1
        simpa using hcl
      refine ⟨new1 ++ new2, ?_, ?_, ?_⟩
      · rw [hacc2, hacc1, List.append_assoc]
      · rw [List.map_append, hbases1, hbases2, List.map_cons,
          List.flatten_cons, List.take_append_eq_append_take]
        congr 2
        simp only [List.length_map, List.length_range]
        omega
      · intro k hk
        by_cases hk1 : k < new1.length
        · rw [List.getElem_append_left hk1]
          exact hparams1 k hk1
        · push_neg at hk1
          have hk2 : k - new1.length < new2.length := by
            have hlen := hk
            simp only [List.length_append] at hlen
            omega
          rw [List.getElem_append_right hk1]
          have hp2 := hparams2 (k - new1.length) hk2
          rw [show count + k = count2 + (k - new1.length) by omega]
          exact hp2

theorem nCols_pos (pw pl : ℝ) (n : ℕ) (hn : 1 ≤ n) (hpw : 0 < pw)
    (hpl : 0 < pl) : 0 < nCols pw pl n := by
  rw [nCols]
  apply Int.ceil_pos.mpr
  apply Real.sqrt_pos.mpr
  have hn0 : (0 : ℝ) < (n : ℝ) := by exact_mod_cast hn
  exact div_pos (mul_pos hn0 hpw) hpl

theorem cells_enough (pw pl : ℝ) (n : ℕ) (hn : 1 ≤ n) (hpw : 0 < pw)
    (hpl : 0 < pl) :
    n ≤ (nCols pw pl n).toNat * (nRows pw pl n).toNat := by
  have hc := nCols_pos pw pl n hn hpw hpl
  have hcR : (0 : ℝ) < ((nCols pw pl n : ℤ) : ℝ) := by exact_mod_cast hc
  have hrow : (n : ℝ) / ((nCols pw pl n : ℤ) : ℝ) ≤
      ((nRows pw pl n : ℤ) : ℝ) := by
    rw [nRows]
    exact Int.le_ceil _
  have hr0 : 0 ≤ nRows pw pl n := by
    rw [nRows]
    apply Int.ceil_nonneg
    exact div_nonneg (by exact_mod_cast Nat.zero_le n) hcR.le
  have hmul : (n : ℝ) ≤ ((nCols pw pl n : ℤ) : ℝ) *
      ((nRows pw pl n : ℤ) : ℝ) := by
    have h1 : (n : ℝ) = ((nCols pw pl n : ℤ) : ℝ) *
        ((n : ℝ) / ((nCols pw pl n : ℤ) : ℝ)) := by
      field_simp
    rw [h1]
    exact mul_le_mul_of_nonneg_left hrow hcR.le
  have hZ : (n : ℤ) ≤ nCols pw pl n * nRows pw pl n := by exact_mod_cast hmul
  have h2 : ((nCols pw pl n).toNat : ℤ) = nCols pw pl n :=
    Int.toNat_of_nonneg hc.le
  have h3 : ((nRows pw pl n).toNat : ℤ) = nRows pw pl n :=
    Int.toNat_of_nonneg hr0
  have hfin : (n : ℤ) ≤ ((nCols pw pl n).toNat : ℤ) *
      ((nRows pw pl n).toNat : ℤ) := by
    rw [h2, h3]
    exact hZ
  exact_mod_cast hfin

/-- Claim C3: with `placement = "uniform"`, `n_trees ≥ 1` and a positive
plot, `generate_stand` emits exactly `n_trees` trees, and their base
positions are exactly the spec-side grid scan list (columns outermost,
cell-centre positions, excess cells skipped) — independent of the random
source. -/
theorem c3_uniform_grid (pw pl : ℝ) (n : ℕ)
    (params : TreeParams ⊕ List TreeParams) (ms : ℝ) (fuel : ℕ)
    (s : RState) (ts : List Tree) (warn : Bool) (s1 : RState)
    (hn : 1 ≤ n) (hpw : 0 < pw) (hpl : 0 < pl)
    (hok : generate_stand pw pl n "uniform" params ms fuel s =
      .ok (ts, warn, s1)) :
    ts.length = n ∧
    ts.map (fun t => t.trunk.base) = specGridPositions pw pl n := by
  unfold generate_stand at hok
  split at hok
  · exact absurd hok (by simp)
  · rw [if_pos rfl] at hok
    split at hok
    · rename_i trees s2 hcol
      simp only [Except.ok.injEq, Prod.mk.injEq] at hok
      obtain ⟨hts, -, -⟩ := hok
      obtain ⟨new, hnew, hbases, -⟩ :=
        colLoop_ok (pw / ((nCols pw pl n).toNat : ℝ))
          (pl / ((nRows pw pl n).toNat : ℝ)) (nRows pw pl n).toNat n _ fuel
          (List.range (nCols pw pl n).toNat) 0 [] s trees s2 hcol
      rw [List.nil_append] at hnew
      rw [← hts, hnew]
      rw [Nat.sub_zero] at hbases
      have hscan :
          ((List.range (nCols pw pl n).toNat).map (fun i : ℕ =>
            (List.range (nRows pw pl n).toNat).map (fun j : ℕ =>
              (pw / ((nCols pw pl n).toNat : ℝ) * ((i : ℝ) + 0.5),
               pl / ((nRows pw pl n).toNat : ℝ) * ((j : ℝ) + 0.5),
               (0 : ℝ))))) =
          ((List.range (nCols pw pl n).toNat).map (fun i : ℕ =>
            (List.range (nRows pw pl n).toNat).map (fun j : ℕ =>
              (((i : ℝ) + 0.5) * pw / ((nCols pw pl n).toNat : ℝ),
               ((j : ℝ) + 0.5) * pl / ((nRows pw pl n).toNat : ℝ),
               (0 : ℝ))))) := by
        apply List.map_congr_left
        intro i _
        apply List.map_congr_left
        intro j _
        refine congrArg₂ Prod.mk (by ring) (congrArg₂ Prod.mk (by ring) rfl)
      rw [hscan] at hbases
      have hlenflat :
          (((List.range (nCols pw pl n).toNat).map (fun i : ℕ =>
            (List.range (nRows pw pl n).toNat).map (fun j : ℕ =>
              (((i : ℝ) + 0.5) * pw / ((nCols pw pl n).toNat : ℝ),
               ((j : ℝ) + 0.5) * pl / ((nRows pw pl n).toNat : ℝ),
               (0 : ℝ))))).flatten).length =
          (nCols pw pl n).toNat * (nRows pw pl n).toNat := by
        rw [List.length_flatten, List.map_map]
        have hconst : ((List.range (nCols pw pl n).toNat).map
            (List.length ∘ fun i : ℕ =>
              (List.range (nRows pw pl n).toNat).map (fun j : ℕ =>
                (((i : ℝ) + 0.5) * pw / ((nCols pw pl n).toNat : ℝ),
                 ((j : ℝ) + 0.5) * pl / ((nRows pw pl n).toNat : ℝ),
                 (0 : ℝ))))) =
            (List.range (nCols pw pl n).toNat).map
              (fun _ : ℕ => (nRows pw pl n).toNat) := by
          apply List.map_congr_left
          intro i _
          simp
        rw [hconst, List.map_const', List.length_range, List.sum_const_nat]
      constructor
      · have hlen := congrArg List.length hbases
        simp only [List.length_map, List.length_take] at hlen
        rw [hlen, hlenflat]
        have := cells_enough pw pl n hn hpw hpl
        omega
      · rw [hbases, specGridPositions]
    · exact absurd hok (by simp)

theorem dist2_symm (a b : ℝ × ℝ) : dist2 a b = dist2 b a := by
  unfold dist2
  congr 1
  ring

theorem randomLoop_ok_inv (pw pl ms : ℝ) (n : ℕ) (getP : ℕ → TreeParams)
    (fuel : ℕ) :
    ∀ (rem att : ℕ) (ps : List (ℝ × ℝ × ℝ)) (trs : List Tree) (s : RState)
      (ps1 : List (ℝ × ℝ × ℝ)) (trs1 : List Tree) (att1 : ℕ) (s1 : RState),
      randomLoop pw pl ms n getP fuel rem att ps trs s =
        .ok (ps1, trs1, att1, s1) →
      att1 ≤ att + rem ∧
      (trs.map (fun t => t.trunk.base) = ps →
        trs1.map (fun t => t.trunk.base) = ps1) ∧
      (ps.Pairwise (fun a b => ms ≤ dist2 (a.1, a.2.1) (b.1, b.2.1)) →
        ps1.Pairwise (fun a b => ms ≤ dist2 (a.1, a.2.1) (b.1, b.2.1))) ∧
      ((∀ (k : ℕ) (hk : k < trs.length),
          trs[k].trunk.height = (getP k).trunk_height ∧
          trs[k].trunk.radius = (getP k).trunk_radius) →
        ∀ (k : ℕ) (hk : k < trs1.length),
          trs1[k].trunk.height = (getP k).trunk_height ∧
          trs1[k].trunk.radius = (getP k).trunk_radius) := by
  intro rem
  induction rem with
  | zero =>
    intro att ps trs s ps1 trs1 att1 s1 h
    simp only [randomLoop, Except.ok.injEq, Prod.mk.injEq] at h
    obtain ⟨hps, htrs, hatt, -⟩ := h
    subst hps
    subst htrs
    subst hatt
    exact ⟨Nat.le_add_right att 0, fun hb => hb, fun hp => hp, fun hi => hi⟩
  | succ rem ih =>
    intro att ps trs s ps1 trs1 att1 s1 h
    simp only [randomLoop] at h
    split_ifs at h with hlt hacc
    · -- candidate accepted
      split at h
      · exact absurd h (by simp)
      · rename_i t s2 hgen
        have htrunk := genTreeAt_ok (getP trs.length) _ fuel _ t s2 hgen
        obtain ⟨iha, ihb, ihp, ihi⟩ := ih (att + 1) _ _ s2 ps1 trs1 att1 s1 h
        refine ⟨by omega, ?_, ?_, ?_⟩
        · intro hb
          apply ihb
          rw [List.map_append, hb]
          simp only [List.map_cons, List.map_nil, htrunk]
        · intro hp
          apply ihp
          rw [List.pairwise_append]
          refine ⟨hp, List.pairwise_singleton _ _, ?_⟩
          intro a ha b hb
          simp only [List.mem_singleton] at hb
          subst hb
          have := hacc a ha
          rw [dist2_symm] at this
          exact this
        · intro hi
          apply ihi
          intro k hk
          rcases Nat.lt_or_ge k trs.length with hk1 | hk1
          · rw [List.getElem_append_left hk1]
            exact hi k hk1
          · have hkeq : k = trs.length := by
              have := hk
              simp only [List.length_append, List.length_singleton] at this
              omega
            subst hkeq
            rw [List.getElem_append_right (le_refl trs.length)]
            simp only [Nat.sub_self, List.getElem_singleton]
            rw [htrunk]
            exact ⟨rfl, rfl⟩
    · -- candidate rejected
      obtain ⟨iha, ihb, ihp, ihi⟩ := ih (att + 1) ps trs _ ps1 trs1 att1 s1 h
      exact ⟨by omega, ihb, ihp, ihi⟩
    · -- all trees placed
      simp only [Except.ok.injEq, Prod.mk.injEq] at h
      obtain ⟨hps, htrs, hatt, -⟩ := h
      subst hps
      subst htrs
      subst hatt
      exact ⟨by omega, fun hb => hb, fun hp => hp, fun hi => hi⟩

/-- Claim C4: every stand returned by `generate_stand` with
`placement = "random"` has pairwise xy-plane distances between distinct tree
base positions of at least `min_spacing` — the accepted-positions list keeps
the spacing invariant at every acceptance step (this is the loop invariant
`randomLoop_ok_inv`). -/
theorem c4_random_spacing (pw pl ms : ℝ) (n : ℕ)
    (params : TreeParams ⊕ List TreeParams) (fuel : ℕ) (s : RState)
    (ts : List Tree) (warn : Bool) (s1 : RState)
    (hok : generate_stand pw pl n "random" params ms fuel s =
      .ok (ts, warn, s1)) :
    (ts.map (fun t => t.trunk.base)).Pairwise
      (fun a b => ms ≤ dist2 (a.1, a.2.1) (b.1, b.2.1)) := by
  unfold generate_stand at hok
  split at hok
  · exact absurd hok (by simp)
  · rw [if_neg (by decide), if_pos rfl] at hok
    split at hok
    · rename_i ps1 trs1 att1 s2 hloop
      simp only [Except.ok.injEq, Prod.mk.injEq] at hok
      obtain ⟨hts, -, -⟩ := hok
      obtain ⟨-, hbases, hpair, -⟩ :=
        randomLoop_ok_inv pw pl ms n (getParam params) fuel (n * 50) 0 [] []
          s ps1 trs1 att1 s2 hloop
      rw [← hts, hbases (by simp)]
      exact hpair (by simp)
    · exact absurd hok (by simp)

/-- Claim C5: the random-placement loop makes at most
`max_attempts = n_trees · 50` draws (the attempt counter, incremented on
every draw, never exceeds the budget), and a shortfall is not an error:
`generate_stand` returns `.ok` with the warning flag set exactly when fewer
than `n_trees` trees were placed. -/
theorem c5_attempt_budget :
    (∀ (pw pl ms : ℝ) (n : ℕ) (getP : ℕ → TreeParams) (fuel : ℕ)
      (s : RState) (ps1 : List (ℝ × ℝ × ℝ)) (trs1 : List Tree) (att1 : ℕ)
      (s1 : RState),
      randomLoop pw pl ms n getP fuel (n * 50) 0 [] [] s =
        .ok (ps1, trs1, att1, s1) →
      att1 ≤ n * 50) ∧
    (∀ (pw pl ms : ℝ) (n : ℕ) (params : TreeParams ⊕ List TreeParams)
      (fuel : ℕ) (s : RState) (ts : List Tree) (warn : Bool) (s1 : RState),
      generate_stand pw pl n "random" params ms fuel s = .ok (ts, warn, s1) →
      (warn = true ↔ ts.length < n)) := by
  constructor
  · intro pw pl ms n getP fuel s ps1 trs1 att1 s1 h
    have := (randomLoop_ok_inv pw pl ms n getP fuel (n * 50) 0 [] [] s
      ps1 trs1 att1 s1 h).1
    omega
  · intro pw pl ms n params fuel s ts warn s1 hok
    unfold generate_stand at hok
    split at hok
    · exact absurd hok (by simp)
    · rw [if_neg (by decide), if_pos rfl] at hok
      split at hok
      · rename_i ps1 trs1 att1 s2 hloop
        simp only [Except.ok.injEq, Prod.mk.injEq] at hok
        obtain ⟨hts, hwarn, -⟩ := hok
        obtain ⟨-, hbases, -, -⟩ :=
          randomLoop_ok_inv pw pl ms n (getParam params) fuel (n * 50) 0 []
            [] s ps1 trs1 att1 s2 hloop
        have hlen : trs1.length = ps1.length := by
          have := congrArg List.length (hbases (by simp))
          simpa using this
        rw [← hts, ← hwarn, hlen]
        simp
      · exact absurd hok (by simp)

theorem nCols_10_10_1 : nCols 10 10 1 = 1 := by
  rw [nCols]
  norm_num [Real.sqrt_one]

theorem nRows_10_10_1 : nRows 10 10 1 = 1 := by
  rw [nRows, nCols_10_10_1]
  norm_num

theorem genTreeAt_p4 (pos : ℝ × ℝ × ℝ) (s : RState) :
    genTreeAt p4 pos 1 s = .ok (⟨⟨pos, 4, 1⟩, []⟩, s) :=
  generate_tree_no_leaves 4 1 3 2 0 1 "cylinder" "planophile" pos 1 s
    one_pos (by norm_num)

theorem stand_uniform_run :
    generate_stand 10 10 1 "uniform" (.inl p4) 1 1 s0 =
      .ok ([⟨⟨(5, 5, 0), 4, 1⟩, []⟩], false, s0) := by
  unfold generate_stand
  rw [if_neg (by simp [perTreeMismatch]), if_pos rfl, nCols_10_10_1,
    nRows_10_10_1]
  have hr1 : List.range 1 = [0] := rfl
  norm_num [hr1, colLoop, rowLoop, getParam, genTreeAt_p4]

/-- Claim C3 witness: one tree on a 10×10 plot lands at the single
cell centre (5, 5, 0). -/
theorem c3_witness :
    ([(⟨⟨(5, 5, 0), 4, 1⟩, []⟩ : Tree)].length = 1) ∧
    [(⟨⟨(5, 5, 0), 4, 1⟩, []⟩ : Tree)].map (fun t => t.trunk.base) =
      specGridPositions 10 10 1 :=
  c3_uniform_grid 10 10 1 (.inl p4) 1 1 s0 _ false s0 le_rfl (by norm_num)
    (by norm_num) stand_uniform_run

theorem stand_uniform_run_list :
    generate_stand 10 10 1 "uniform" (.inr [p4]) 1 1 s0 =
      .ok ([⟨⟨(5, 5, 0), 4, 1⟩, []⟩], false, s0) := by
  unfold generate_stand
  rw [if_neg (by simp [perTreeMismatch]), if_pos rfl, nCols_10_10_1,
    nRows_10_10_1]
  have hr1 : List.range 1 = [0] := rfl
  norm_num [hr1, colLoop, rowLoop, getParam, genTreeAt_p4]

theorem randomLoop_stop (pw pl ms : ℝ) (n : ℕ) (getP : ℕ → TreeParams)
    (fuel rem att : ℕ) (ps : List (ℝ × ℝ × ℝ)) (trs : List Tree)
    (s : RState) (hlen : n ≤ ps.length) :
    randomLoop pw pl ms n getP fuel rem att ps trs s =
      .ok (ps, trs, att, s) := by
  cases rem with
  | zero => rfl
  | succ rem =>
    simp only [randomLoop]
    rw [if_neg (by omega)]

theorem randomLoop_succ (pw pl ms : ℝ) (n : ℕ) (getP : ℕ → TreeParams)
    (fuel rem att : ℕ) (ps : List (ℝ × ℝ × ℝ)) (trs : List Tree)
    (s : RState) :
    randomLoop pw pl ms n getP fuel (rem + 1) att ps trs s =
      (if ps.length < n then
        (if ∀ p ∈ ps, ms ≤ dist2 ((uniformR 0 pw s).1,
            (uniformR 0 pl (uniformR 0 pw s).2).1) (p.1, p.2.1) then
          match genTreeAt (getP trs.length) ((uniformR 0 pw s).1,
              (uniformR 0 pl (uniformR 0 pw s).2).1, 0) fuel
              (uniformR 0 pl (uniformR 0 pw s).2).2 with
          | .error e => .error e
          | .ok (tree, s1) =>
            randomLoop pw pl ms n getP fuel rem (att + 1)
              (ps ++ [((uniformR 0 pw s).1,
                (uniformR 0 pl (uniformR 0 pw s).2).1, 0)])
              (trs ++ [tree]) s1
        else
          randomLoop pw pl ms n getP fuel rem (att + 1) ps trs
            (uniformR 0 pl (uniformR 0 pw s).2).2)
      else .ok (ps, trs, att, s)) := rfl

theorem randomLoop_run :
    randomLoop 10 10 1 1 (getParam (.inl p4)) 1 (1 * 50) 0 [] [] s0 =
      .ok ([(5, 5, 0)], [⟨⟨(5, 5, 0), 4, 1⟩, []⟩], 1, ⟨s0.vals, 2⟩) := by
  rw [show (1 * 50 : ℕ) = 49 + 1 from rfl]
  rw [randomLoop_succ]
  rw [if_pos (by simp), if_pos (by simp)]
  simp only [getParam]
  rw [genTreeAt_p4]
  dsimp only
  rw [randomLoop_stop]
  · norm_num [uniformR, draw, s0]
  · simp

theorem stand_random_run :
    generate_stand 10 10 1 "random" (.inl p4) 1 1 s0 =
      .ok ([⟨⟨(5, 5, 0), 4, 1⟩, []⟩], false, ⟨s0.vals, 2⟩) := by
  unfold generate_stand
  rw [if_neg (by simp [perTreeMismatch]), if_neg (by decide), if_pos rfl,
    randomLoop_run]
  rfl

/-- Claim C4 witness: the concrete single-tree random stand satisfies the
pairwise-spacing invariant. -/
theorem c4_witness :
    ([(⟨⟨(5, 5, 0), 4, 1⟩, []⟩ : Tree)].map (fun t => t.trunk.base)).Pairwise
      (fun a b => (1 : ℝ) ≤ dist2 (a.1, a.2.1) (b.1, b.2.1)) :=
  c4_random_spacing 10 10 1 1 (.inl p4) 1 s0 _ false _ stand_random_run

/-- Claim C5 witness: the concrete run used exactly one attempt, within the
budget `1 · 50`, and its warning flag is false since one tree was placed. -/
theorem c5_witness :
    (1 ≤ 1 * 50) ∧
    (false = true ↔ [(⟨⟨(5, 5, 0), 4, 1⟩, []⟩ : Tree)].length < 1) :=
  ⟨c5_attempt_budget.1 10 10 1 1 (getParam (.inl p4)) 1 s0 _ _ 1 _
      randomLoop_run,
   c5_attempt_budget.2 10 10 1 1 (.inl p4) 1 s0 _ false _ stand_random_run⟩

/-- Claim C7: a per-tree parameter list whose length differs from `n_trees`
makes `generate_stand` fail with the invalid-parameter error before placing
any tree (whatever the placement string); with matching length, bundle `i` is
applied to the i-th generated tree in placement order, for both placements —
observed here through the trunk height and radius. -/
theorem c7_per_tree_params :
    (∀ (pw pl : ℝ) (n : ℕ) (placement : String) (l : List TreeParams)
      (ms : ℝ) (fuel : ℕ) (s : RState), l.length ≠ n →
      generate_stand pw pl n placement (.inr l) ms fuel s =
        .error .invalidParameter) ∧
    (∀ (pw pl : ℝ) (n : ℕ) (placement : String) (l : List TreeParams)
      (ms : ℝ) (fuel : ℕ) (s : RState) (ts : List Tree) (warn : Bool)
      (s1 : RState), l.length = n →
      (placement = "uniform" ∨ placement = "random") →
      generate_stand pw pl n placement (.inr l) ms fuel s =
        .ok (ts, warn, s1) →
      ∀ (k : ℕ) (hk : k < ts.length),
        ts[k].trunk.height = (l.getD k dfltParams).trunk_height ∧
        ts[k].trunk.radius = (l.getD k dfltParams).trunk_radius) := by
  constructor
  · intro pw pl n placement l ms fuel s hne
    unfold generate_stand
    rw [if_pos (by simp [perTreeMismatch]; exact hne)]
  · intro pw pl n placement l ms fuel s ts warn s1 hlen hpl hok
    rcases hpl with hpl | hpl <;> subst hpl
    · unfold generate_stand at hok
      split at hok
      · exact absurd hok (by simp)
      · rw [if_pos rfl] at hok
        split at hok
        · rename_i trees s2 hcol
          simp only [Except.ok.injEq, Prod.mk.injEq] at hok
          obtain ⟨hts, -, -⟩ := hok
          obtain ⟨new, hnew, -, hparams⟩ :=
            colLoop_ok (pw / ((nCols pw pl n).toNat : ℝ))
              (pl / ((nRows pw pl n).toNat : ℝ)) (nRows pw pl n).toNat n _
              fuel (List.range (nCols pw pl n).toNat) 0 [] s trees s2 hcol
          rw [List.nil_append] at hnew
          rw [← hts, hnew]
          intro k hk
          have hp := hparams k hk
          simp only [Nat.zero_add, getParam] at hp
          exact hp
        · exact absurd hok (by simp)
    · unfold generate_stand at hok
      split at hok
      · exact absurd hok (by simp)
      · rw [if_neg (by decide), if_pos rfl] at hok
        split at hok
        · rename_i ps1 trs1 att1 s2 hloop
          simp only [Except.ok.injEq, Prod.mk.injEq] at hok
          obtain ⟨hts, -, -⟩ := hok
          obtain ⟨-, -, -, hinv⟩ :=
            randomLoop_ok_inv pw pl ms n (getParam (.inr l)) fuel (n * 50) 0
              [] [] s ps1 trs1 att1 s2 hloop
          rw [← hts]
          intro k hk
          have hp := hinv (fun k hk => absurd hk (by simp)) k hk
          simp only [getParam] at hp
          exact hp
        · exact absurd hok (by simp)

/-- Claim C7 witness: a one-bundle list with two requested trees fails, and
with one requested tree the single tree takes trunk height 4 from the
bundle. -/
theorem c7_witness :
    generate_stand 10 10 2 "uniform" (.inr [p4]) 1 1 s0 =
      .error .invalidParameter ∧
    (⟨⟨(5, 5, 0), 4, 1⟩, []⟩ : Tree).trunk.height =
      ([p4].getD 0 dfltParams).trunk_height :=
  ⟨c7_per_tree_params.1 10 10 2 "uniform" [p4] 1 1 s0 (by decide),
   (c7_per_tree_params.2 10 10 1 "uniform" [p4] 1 1 s0
      [⟨⟨(5, 5, 0), 4, 1⟩, []⟩] false s0 rfl (Or.inl rfl)
      stand_uniform_run_list 0 (by decide)).1⟩

end ForestStand
